import Mathlib

/-!
Expense tracker: data model, session manager, ledger and persistence codec.

A shallow embedding of `src/main.cpp`.  The widget tree is left out; what is kept is the
state the slots read and write (`users`, `currentUser`, the rows of the `expenseList`
widget) and the text that `saveUserData` writes and `loadUserData` reads.

Qt values whose implementation is outside the repository (`QDateTime`, `double`
formatting and parsing) are taken through the record `QtLib`.  `std::sort` is a
parameter of `sortExpenses`: the general theorems hold for every function that meets the
contract the C++ standard gives it, and the runs on concrete sequences use `gnuSort`,
the `std::sort` of GNU libstdc++.
-/

namespace ExpenseTracker

/-! ## Data model -/

/-- A `QString`, as its sequence of characters. -/
abbrev QString := List Char

/-- Source: `struct Expense`.  `T` is `QDateTime`, `A` is `double`. -/
structure Expense (T A : Type) where
  description : QString
  expenseDate : T
  category : QString
  amount : A
deriving DecidableEq, Repr

/-- Source: `struct User`. -/
structure User (T A : Type) where
  username : QString
  password : QString
  expenses : List (Expense T A)
deriving DecidableEq, Repr

/-- The Qt operations the program calls on `QDateTime` and `double` values.

* `nullDateTime`: a default-constructed (invalid) `QDateTime`;
* `parseDateTime s`: `QDateTime::fromString(s, "yyyy-MM-dd HH:mm:ss")`, `none` when the
  text does not match the format (Qt then returns the invalid value);
* `dateToString`: `QDateTime::toString("yyyy-MM-dd HH:mm:ss")`;
* `toMSecsSinceEpoch`: the number `QDateTime::operator<` compares;
* `parseDouble s`: `QString::toDouble`, `none` when the conversion fails (Qt then
  returns `0.0`);
* `streamDouble`: the text `QTextStream::operator<<(double)` writes;
* `numberFixed2`: `QString::number(x, 'f', 2)`. -/
structure QtLib (T A : Type) where
  nullDateTime : T
  parseDateTime : QString → Option T
  dateToString : T → QString
  toMSecsSinceEpoch : T → Int
  parseDouble : QString → Option A
  streamDouble : A → QString
  numberFixed2 : A → QString

/-- The members of `ExpenseTracker` the slots read and write: `users`, `currentUser`
and the rows shown by the `expenseList` widget. -/
structure Tracker (T A : Type) where
  users : List (User T A)
  currentUser : User T A
  expenseList : List QString
deriving DecidableEq, Repr

variable {T A : Type}

/-- `QDateTime::fromString`: the parsed value, or the invalid `QDateTime`. -/
def fromString (lib : QtLib T A) (s : QString) : T :=
  match lib.parseDateTime s with
  | some t => t
  | none => lib.nullDateTime

/-- `QString::toDouble`: the parsed number, or `0.0` when the conversion fails. -/
def toDouble [Zero A] (lib : QtLib T A) (s : QString) : A :=
  match lib.parseDouble s with
  | some x => x
  | none => 0

/-- Source: `Expense::toString`. -/
def Expense.toString (lib : QtLib T A) (e : Expense T A) : QString :=
  e.description ++ " - ".toList ++ lib.dateToString e.expenseDate ++
    " | Category: ".toList ++ e.category ++ " | Amount: $".toList ++ lib.numberFixed2 e.amount

/-- A freshly constructed `ExpenseTracker`: no users, a default `currentUser`, an empty
list widget. -/
def Tracker.init : Tracker T A :=
  ⟨[], ⟨[], [], []⟩, []⟩

/-! ## Session manager -/

/-- The loop of `loginUser`: the first user whose username and password both match. -/
def loginLoop (username password : QString) : List (User T A) → Option (User T A)
  | [] => none
  | user :: rest =>
    if user.username = username ∧ user.password = password then some user
    else loginLoop username password rest

/-- Source: `ExpenseTracker::loginUser`.  The returned `Bool` is the function's result. -/
def loginUser (st : Tracker T A) (username password : QString) : Bool × Tracker T A :=
  match loginLoop username password st.users with
  | some user => (true, ⟨st.users, user, st.expenseList⟩)
  | none => (false, st)

/-- The loop of `registerUser`: `true` when some user already has the username. -/
def userExists (username : QString) : List (User T A) → Bool
  | [] => false
  | user :: rest => if user.username = username then true else userExists username rest

/-- Source: `ExpenseTracker::registerUser`. -/
def registerUser (st : Tracker T A) (username password : QString) : Bool × Tracker T A :=
  if userExists username st.users then (false, st)
  else
    let newUser : User T A := ⟨username, password, []⟩
    (true, ⟨st.users ++ [newUser], newUser, st.expenseList⟩)

/-! ## Expense ledger -/

/-- The values `addExpense` reads from the input widgets: the description edit, the
date and time selected in the calendar and the time edit (the `QDateTime` that
`setDate` and `setTime` build from them), the category box and the amount edit. -/
structure AddInput (T : Type) where
  description : QString
  expenseDate : T
  category : QString
  amountText : QString

/-- Source: `ExpenseTracker::addExpense`.  The second component is the text of the
warning box, when one is shown. -/
def addExpense [Zero A] (lib : QtLib T A) (st : Tracker T A) (inp : AddInput T) :
    Tracker T A × Option QString :=
  if inp.description.isEmpty then
    (st, some "Expense description cannot be empty.".toList)
  else
    let newExpense : Expense T A :=
      ⟨inp.description, inp.expenseDate, inp.category, toDouble lib inp.amountText⟩
    (⟨st.users,
      ⟨st.currentUser.username, st.currentUser.password, st.currentUser.expenses ++ [newExpense]⟩,
      st.expenseList ++ [newExpense.toString lib]⟩, none)

/-- Source: `ExpenseTracker::removeExpense`, with `selectedRow` the widget's
`currentRow()`.  `QVector::remove(i)` requires `0 <= i < size`; a call outside that
range (an assertion failure or undefined behaviour in Qt) is `none`.
`QListWidget::takeItem` does nothing for a row that does not exist. -/
def removeExpense (st : Tracker T A) (selectedRow : Int) :
    Option (Tracker T A × Option QString) :=
  if selectedRow ≥ 0 then
    if selectedRow.toNat < st.currentUser.expenses.length then
      some (⟨st.users,
        ⟨st.currentUser.username, st.currentUser.password,
          st.currentUser.expenses.eraseIdx selectedRow.toNat⟩,
        st.expenseList.eraseIdx selectedRow.toNat⟩, none)
    else none
  else some (st, some "Please select an expense to remove.".toList)

/-- The comparison passed to `std::sort`: `a.expenseDate < b.expenseDate`. -/
def expenseLess (lib : QtLib T A) (a b : Expense T A) : Bool :=
  decide (lib.toMSecsSinceEpoch a.expenseDate < lib.toMSecsSinceEpoch b.expenseDate)

/-- Source: `ExpenseTracker::sortExpenses`; `stdSort` is `std::sort`. -/
def sortExpenses (lib : QtLib T A)
    (stdSort : (Expense T A → Expense T A → Bool) → List (Expense T A) → List (Expense T A))
    (st : Tracker T A) : Tracker T A :=
  let sorted := stdSort (expenseLess lib) st.currentUser.expenses
  ⟨st.users, ⟨st.currentUser.username, st.currentUser.password, sorted⟩,
    sorted.map (Expense.toString lib)⟩

/-- The loop of `viewTotal`: `total += expense.amount` over the sequence. -/
def totalLoop [Add A] (total : A) : List (Expense T A) → A
  | [] => total
  | expense :: rest => totalLoop (total + expense.amount) rest

/-- Source: `ExpenseTracker::viewTotal`: the state afterwards, the value of the local
`total`, and the text of the information box. -/
def viewTotal [Zero A] [Add A] (lib : QtLib T A) (st : Tracker T A) :
    Tracker T A × A × QString :=
  let total := totalLoop 0 st.currentUser.expenses
  (st, total, "Total Expenses: $".toList ++ lib.numberFixed2 total)

/-! ## Persistence codec -/

/-- `QString::split(sep)` (empty parts are kept; the empty string gives one empty part). -/
def split (sep : Char) : QString → List QString
  | [] => [[]]
  | c :: cs =>
    if c = sep then [] :: split sep cs
    else
      match split sep cs with
      | [] => [[c]]
      | part :: parts => (c :: part) :: parts

/-- The lines `QTextStream::readLine` returns, in order, for a file with this content:
each line ends at a newline or at the end of the text, and the stream is `atEnd` once
the last character has been read. -/
def textLines : QString → List QString
  | [] => []
  | c :: cs =>
    if c = '\n' then [] :: textLines cs
    else
      match textLines cs with
      | [] => [[c]]
      | line :: lines => (c :: line) :: lines

/-- The inner loop of `saveUserData`: one line per expense. -/
def writeExpenses (lib : QtLib T A) : List (Expense T A) → QString
  | [] => []
  | expense :: rest =>
    expense.description ++ [';'] ++ lib.dateToString expense.expenseDate ++ [';'] ++
      expense.category ++ [';'] ++ lib.streamDouble expense.amount ++ ['\n'] ++
      writeExpenses lib rest

/-- The outer loop of `saveUserData`: for each user the line `username;password`, the
expense lines and an empty line. -/
def writeUsers (lib : QtLib T A) : List (User T A) → QString
  | [] => []
  | user :: rest =>
    user.username ++ [';'] ++ user.password ++ ['\n'] ++
      writeExpenses lib user.expenses ++ ['\n'] ++ writeUsers lib rest

/-- Source: `ExpenseTracker::saveUserData`: the content written to `userdata.txt`. -/
def saveUserData (lib : QtLib T A) (st : Tracker T A) : QString :=
  writeUsers lib st.users

/-- The inner loop of `loadUserData` on the lines still to be read: the expenses of the
user being loaded and the lines left in the stream.  A line is kept when it splits on
`;` into 4 parts. -/
def readExpenses [Zero A] (lib : QtLib T A) :
    List QString → List (Expense T A) → List (Expense T A) × List QString
  | [], expenses => (expenses, [])
  | line :: rest, expenses =>
    if line.isEmpty then (expenses, rest)
    else
      match split ';' line with
      | [p0, p1, p2, p3] =>
        readExpenses lib rest (expenses ++ [⟨p0, fromString lib p1, p2, toDouble lib p3⟩])
      | _ => readExpenses lib rest expenses

/-- The outer loop of `loadUserData` on the lines still to be read.  `readLine` at the
end of the stream returns an empty string.  Every iteration reads at least one line,
so a `fuel` of the number of lines is never used up. -/
def loadLoop [Zero A] (lib : QtLib T A) :
    Nat → List QString → List (User T A) → List (User T A)
  | 0, _, users => users
  | _ + 1, [], users => users
  | fuel + 1, username :: afterName, users =>
    let password := afterName.headD []
    let afterPassword := afterName.tail
    if !username.isEmpty && !password.isEmpty then
      let loaded := readExpenses lib afterPassword []
      loadLoop lib fuel loaded.2 (users ++ [⟨username, password, loaded.1⟩])
    else loadLoop lib fuel afterPassword users

/-- Source: `ExpenseTracker::loadUserData`, given the content of `userdata.txt`. -/
def loadUserData [Zero A] (lib : QtLib T A) (st : Tracker T A) (text : QString) :
    Tracker T A :=
  let lines := textLines text
  ⟨loadLoop lib lines.length lines st.users, st.currentUser, st.expenseList⟩

/-- The expense `loadUserData` builds from a line with four parts. -/
def lineExpense [Zero A] (lib : QtLib T A) (line : QString) : Expense T A :=
  ⟨(split ';' line).getD 0 [], fromString lib ((split ';' line).getD 1 []),
    (split ';' line).getD 2 [], toDouble lib ((split ';' line).getD 3 [])⟩

/-- The expenses `loadUserData` keeps from a run of expense lines: one for each line
that splits into exactly four parts. -/
def keptExpenses [Zero A] (lib : QtLib T A) (ls : List QString) : List (Expense T A) :=
  (ls.filter (fun l => decide ((split ';' l).length = 4))).map (lineExpense lib)

/-! ## `std::sort` -/

/-- A strict weak ordering, the requirement of `std::sort` on its comparison. -/
structure IsStrictWeak {E : Type} (lt : E → E → Bool) : Prop where
  irrefl : ∀ a, lt a a = false
  trans : ∀ a b c, lt a b = true → lt b c = true → lt a c = true
  equivTrans : ∀ a b c, lt a b = false → lt b a = false → lt b c = false → lt c b = false →
    lt a c = false ∧ lt c a = false

/-- The contract of `std::sort`: for a strict weak ordering the result is a
rearrangement of the input in which no element is less than one before it.  The order
of equivalent elements is not part of the contract. -/
def StdSortContract {E : Type} (stdSort : (E → E → Bool) → List E → List E) : Prop :=
  ∀ lt, IsStrictWeak lt → ∀ xs,
    (stdSort lt xs).Perm xs ∧ (stdSort lt xs).Pairwise (fun a b => lt b a = false)

/-- An insertion sort: it meets the contract and keeps equivalent elements in input
order. -/
def stableSort {E : Type} (lt : E → E → Bool) (xs : List E) : List E :=
  xs.insertionSort (fun a b => lt b a = false)

/-! ### The `std::sort` of GNU libstdc++

`bits/stl_algo.h` and `bits/stl_heap.h`: introsort down to ranges of 16 elements, heap
sort when the depth budget `2 * lg n` is used up, then an insertion sort over the
whole range.  The sequence is a list, iterators are positions in it. -/

/-- `comp(i, j)` on the elements at two positions.  The algorithm only compares
positions inside the sequence; outside it the result is `false`, which ends every
scan. -/
def compAt {E : Type} (lt : E → E → Bool) (xs : List E) (i j : Nat) : Bool :=
  match xs[i]?, xs[j]? with
  | some a, some b => lt a b
  | _, _ => false

/-- `std::iter_swap` on two positions of the sequence. -/
def iterSwap {E : Type} (xs : List E) (i j : Nat) : List E :=
  match xs[i]?, xs[j]? with
  | some a, some b => (xs.set i b).set j a
  | _, _ => xs

/-- The loop of `__unguarded_linear_insert` with `__last = last` holding `val`. -/
def linearInsertLoop {E : Type} (lt : E → E → Bool) (val : E) : Nat → List E → List E
  | 0, xs => xs.set 0 val
  | next + 1, xs =>
    match xs[next]? with
    | some nextVal =>
      if lt val nextVal then linearInsertLoop lt val next (xs.set (next + 1) nextVal)
      else xs.set (next + 1) val
    | none => xs.set (next + 1) val

/-- `__unguarded_linear_insert(last)`. -/
def unguardedLinearInsert {E : Type} (lt : E → E → Bool) (xs : List E) (last : Nat) : List E :=
  match xs[last]? with
  | some val => linearInsertLoop lt val last xs
  | none => xs

/-- One pass of the loop of `__insertion_sort` at position `i`. -/
def insertionStep {E : Type} (lt : E → E → Bool) (first : Nat) (xs : List E) (i : Nat) : List E :=
  if compAt lt xs i first then
    match xs[i]? with
    | some val => xs.take first ++ val :: (xs.drop first).take (i - first) ++ xs.drop (i + 1)
    | none => xs
  else unguardedLinearInsert lt xs i

/-- The loop of `__insertion_sort`: `count` passes starting at position `i`. -/
def insertionLoop {E : Type} (lt : E → E → Bool) (first : Nat) : Nat → Nat → List E → List E
  | 0, _, xs => xs
  | count + 1, i, xs => insertionLoop lt first count (i + 1) (insertionStep lt first xs i)

/-- `__insertion_sort(first, last)`. -/
def gnuInsertionSort {E : Type} (lt : E → E → Bool) (first last : Nat) (xs : List E) : List E :=
  if first = last then xs else insertionLoop lt first (last - (first + 1)) (first + 1) xs

/-- `__unguarded_insertion_sort(first, last)`: `count` passes starting at `i`. -/
def unguardedInsertionLoop {E : Type} (lt : E → E → Bool) : Nat → Nat → List E → List E
  | 0, _, xs => xs
  | count + 1, i, xs => unguardedInsertionLoop lt count (i + 1) (unguardedLinearInsert lt xs i)

/-- `__final_insertion_sort(first, last)`, with `_S_threshold = 16`. -/
def finalInsertionSort {E : Type} (lt : E → E → Bool) (first last : Nat) (xs : List E) : List E :=
  if last - first > 16 then
    unguardedInsertionLoop lt (last - (first + 16)) (first + 16)
      (gnuInsertionSort lt first (first + 16) xs)
  else gnuInsertionSort lt first last xs

/-- `__move_median_to_first(result, a, b, c)`. -/
def moveMedianToFirst {E : Type} (lt : E → E → Bool) (xs : List E) (result a b c : Nat) : List E :=
  if compAt lt xs a b then
    if compAt lt xs b c then iterSwap xs result b
    else if compAt lt xs a c then iterSwap xs result c
    else iterSwap xs result a
  else if compAt lt xs a c then iterSwap xs result a
  else if compAt lt xs b c then iterSwap xs result c
  else iterSwap xs result b

/-- `while (comp(first, pivot)) ++first`. -/
def scanUp {E : Type} (lt : E → E → Bool) (xs : List E) (pivot : Nat) : Nat → Nat → Nat
  | 0, first => first
  | fuel + 1, first =>
    if compAt lt xs first pivot then scanUp lt xs pivot fuel (first + 1) else first

/-- `while (comp(pivot, last)) --last`. -/
def scanDown {E : Type} (lt : E → E → Bool) (xs : List E) (pivot : Nat) : Nat → Nat
  | 0 => 0
  | last + 1 => if compAt lt xs pivot (last + 1) then scanDown lt xs pivot last else last + 1

/-- `__unguarded_partition(first, last, pivot)`: the cut and the rearranged sequence. -/
def unguardedPartition {E : Type} (lt : E → E → Bool) (pivot : Nat) :
    Nat → Nat → Nat → List E → Nat × List E
  | 0, first, _, xs => (first, xs)
  | fuel + 1, first, last, xs =>
    let f := scanUp lt xs pivot (xs.length + 1) first
    let l := scanDown lt xs pivot (last - 1)
    if f < l then unguardedPartition lt pivot fuel (f + 1) l (iterSwap xs f l)
    else (f, xs)

/-- `__unguarded_partition_pivot(first, last)`. -/
def unguardedPartitionPivot {E : Type} (lt : E → E → Bool) (first last : Nat) (xs : List E) :
    Nat × List E :=
  let mid := first + (last - first) / 2
  unguardedPartition lt first (xs.length + 1) (first + 1) last
    (moveMedianToFirst lt xs first (first + 1) mid (last - 1))

/-- The loop of `__push_heap`, `value` being held outside the sequence. -/
def pushHeapLoop {E : Type} (lt : E → E → Bool) (first top : Nat) (value : E) :
    Nat → Nat → List E → List E
  | 0, hole, xs => xs.set (first + hole) value
  | fuel + 1, hole, xs =>
    let parent := (hole - 1) / 2
    match xs[first + parent]? with
    | some parentVal =>
      if hole > top && lt parentVal value then
        pushHeapLoop lt first top value fuel parent (xs.set (first + hole) parentVal)
      else xs.set (first + hole) value
    | none => xs.set (first + hole) value

/-- The first loop of `__adjust_heap`: the hole, `secondChild` and the sequence after it. -/
def adjustHeapLoop {E : Type} (lt : E → E → Bool) (first len : Nat) :
    Nat → Nat → Nat → List E → Nat × Nat × List E
  | 0, hole, secondChild, xs => (hole, secondChild, xs)
  | fuel + 1, hole, secondChild, xs =>
    if secondChild < (len - 1) / 2 then
      let sc := 2 * (secondChild + 1)
      let sc := if compAt lt xs (first + sc) (first + (sc - 1)) then sc - 1 else sc
      match xs[first + sc]? with
      | some v => adjustHeapLoop lt first len fuel sc sc (xs.set (first + hole) v)
      | none => (hole, secondChild, xs)
    else (hole, secondChild, xs)

/-- `__adjust_heap(first, holeIndex, len, value)`. -/
def adjustHeap {E : Type} (lt : E → E → Bool) (first holeIndex len : Nat) (value : E)
    (xs : List E) : List E :=
  let r := adjustHeapLoop lt first len len holeIndex holeIndex xs
  let hole := r.1
  let secondChild := r.2.1
  let xs1 := r.2.2
  if len % 2 = 0 ∧ secondChild = (len - 2) / 2 then
    let sc := 2 * (secondChild + 1)
    match xs1[first + (sc - 1)]? with
    | some v => pushHeapLoop lt first holeIndex value len (sc - 1) (xs1.set (first + hole) v)
    | none => xs1
  else pushHeapLoop lt first holeIndex value len hole xs1

/-- `__pop_heap(first, last, result)`. -/
def popHeap {E : Type} (lt : E → E → Bool) (first last result : Nat) (xs : List E) : List E :=
  match xs[result]?, xs[first]? with
  | some value, some top => adjustHeap lt first 0 (last - first) value (xs.set result top)
  | _, _ => xs

/-- The loop of `__make_heap`, from `parent` down to 0. -/
def makeHeapLoop {E : Type} (lt : E → E → Bool) (first len : Nat) : Nat → List E → List E
  | 0, xs =>
    match xs[first]? with
    | some value => adjustHeap lt first 0 len value xs
    | none => xs
  | parent + 1, xs =>
    match xs[first + (parent + 1)]? with
    | some value => makeHeapLoop lt first len parent (adjustHeap lt first (parent + 1) len value xs)
    | none => xs

/-- `__make_heap(first, last)`. -/
def makeHeap {E : Type} (lt : E → E → Bool) (first last : Nat) (xs : List E) : List E :=
  if last - first < 2 then xs
  else makeHeapLoop lt first (last - first) ((last - first - 2) / 2) xs

/-- `__sort_heap(first, last)`, `size` being `last - first`. -/
def sortHeap {E : Type} (lt : E → E → Bool) (first : Nat) : Nat → List E → List E
  | 0, xs => xs
  | size + 1, xs =>
    if size + 1 > 1 then sortHeap lt first size (popHeap lt first (first + size) (first + size) xs)
    else xs

/-- `__partial_sort(first, last, last)`: `__heap_select` with `middle = last` (its loop
over `[middle, last)` is empty) and then `__sort_heap`. -/
def partialSort {E : Type} (lt : E → E → Bool) (first last : Nat) (xs : List E) : List E :=
  sortHeap lt first (last - first) (makeHeap lt first last xs)

/-- `__introsort_loop(first, last, depth_limit)`. -/
def introsortLoop {E : Type} (lt : E → E → Bool) : Nat → Nat → Nat → List E → List E
  | 0, first, last, xs => if last - first > 16 then partialSort lt first last xs else xs
  | depth + 1, first, last, xs =>
    if last - first > 16 then
      let p := unguardedPartitionPivot lt first last xs
      introsortLoop lt depth first p.1 (introsortLoop lt depth p.1 last p.2)
    else xs

/-- The loop computing `std::__lg`. -/
def lgLoop : Nat → Nat → Nat
  | 0, _ => 0
  | fuel + 1, n => if n < 2 then 0 else lgLoop fuel (n / 2) + 1

/-- `std::__lg(n)`: the position of the highest bit set in `n`. -/
def lg (n : Nat) : Nat :=
  lgLoop n n

/-- `std::sort(begin, end, comp)` of GNU libstdc++ (`std::__sort`). -/
def gnuSort {E : Type} (lt : E → E → Bool) (xs : List E) : List E :=
  if xs.length = 0 then xs
  else finalInsertionSort lt 0 xs.length (introsortLoop lt (lg xs.length * 2) 0 xs.length xs)


/-- Entries with the same sort key appear in `output` in their `input` order. -/
def KeepsTieOrder {E : Type} (key : E → Int) (input output : List E) : Prop :=
  ∀ k, output.filter (fun e => decide (key e = k)) = input.filter (fun e => decide (key e = k))

/-! ## A reference instance of the Qt operations -/

/-- A date and time of day; `valid = false` is the invalid `QDateTime`. -/
structure RefDateTime where
  valid : Bool
  year : Nat
  month : Nat
  day : Nat
  hour : Nat
  minute : Nat
  second : Nat
deriving DecidableEq, Repr

/-- The value of a decimal digit. -/
def digitVal (c : Char) : Option Nat :=
  if c.isDigit then some (c.toNat - 48) else none

/-- The number written by a non-empty run of decimal digits. -/
def parseDigits (cs : List Char) : Option Nat :=
  if cs.isEmpty then none
  else cs.foldl (fun acc c => acc.bind fun n => (digitVal c).map fun d => 10 * n + d) (some 0)

/-- Days in a month of the proleptic Gregorian calendar. -/
def daysInMonth (year month : Nat) : Nat :=
  if month = 2 then
    if year % 4 = 0 ∧ (year % 100 ≠ 0 ∨ year % 400 = 0) then 29 else 28
  else if month = 4 ∨ month = 6 ∨ month = 9 ∨ month = 11 then 30
  else 31

/-- Reads `yyyy-MM-dd HH:mm:ss`. -/
def refParseDateTime (s : QString) : Option RefDateTime :=
  match s with
  | [y1, y2, y3, y4, '-', m1, m2, '-', d1, d2, ' ', h1, h2, ':', n1, n2, ':', s1, s2] =>
    match parseDigits [y1, y2, y3, y4], parseDigits [m1, m2], parseDigits [d1, d2],
        parseDigits [h1, h2], parseDigits [n1, n2], parseDigits [s1, s2] with
    | some y, some m, some d, some h, some n, some sec =>
      if 1 ≤ m ∧ m ≤ 12 ∧ 1 ≤ d ∧ d ≤ daysInMonth y m ∧ h < 24 ∧ n < 60 ∧ sec < 60 then
        some ⟨true, y, m, d, h, n, sec⟩
      else none
    | _, _, _, _, _, _ => none
  | _ => none

/-- The decimal digits of `n`, padded with zeros on the left to `width` characters. -/
def padDigits (width n : Nat) : QString :=
  let ds := Nat.toDigits 10 n
  List.replicate (width - ds.length) '0' ++ ds

/-- Writes `yyyy-MM-dd HH:mm:ss`; the invalid value gives the empty string. -/
def refDateToString (t : RefDateTime) : QString :=
  if t.valid then
    padDigits 4 t.year ++ ['-'] ++ padDigits 2 t.month ++ ['-'] ++ padDigits 2 t.day ++ [' '] ++
      padDigits 2 t.hour ++ [':'] ++ padDigits 2 t.minute ++ [':'] ++ padDigits 2 t.second
  else []

/-- Days from 1970-01-01 to the given civil date. -/
def daysFromCivil (year month day : Nat) : Int :=
  let y : Int := if month ≤ 2 then (year : Int) - 1 else year
  let era : Int := y / 400
  let yoe : Int := y - era * 400
  let mp : Int := if month > 2 then (month : Int) - 3 else (month : Int) + 9
  let doy : Int := (153 * mp + 2) / 5 + (day : Int) - 1
  let doe : Int := yoe * 365 + yoe / 4 - yoe / 100 + doy
  era * 146097 + doe - 719468

/-- Milliseconds from the epoch (taking the time as UTC); 0 for the invalid value. -/
def refMSecs (t : RefDateTime) : Int :=
  if t.valid then
    ((daysFromCivil t.year t.month t.day * 24 + t.hour) * 60 + t.minute) * 60000 +
      (t.second : Int) * 1000
  else 0

/-- Amounts of the reference instance: a number of hundredths. -/
structure RefAmount where
  hundredths : Int
deriving DecidableEq, Repr

instance : Zero RefAmount := ⟨⟨0⟩⟩

instance : Add RefAmount := ⟨fun a b => ⟨a.hundredths + b.hundredths⟩⟩

/-- Reads an optional sign, digits and an optional fraction of at most two digits. -/
def refParseDouble (s : QString) : Option RefAmount :=
  let signed : Int × QString :=
    match s with
    | '-' :: r => (-1, r)
    | '+' :: r => (1, r)
    | r => (1, r)
  match split '.' signed.2 with
  | [whole] => (parseDigits whole).map fun n => ⟨signed.1 * (100 * (n : Int))⟩
  | [whole, frac] =>
    match parseDigits whole, frac with
    | some n, [] => some ⟨signed.1 * (100 * (n : Int))⟩
    | some n, [f1] => (digitVal f1).map fun a => ⟨signed.1 * (100 * (n : Int) + 10 * a)⟩
    | some n, [f1, f2] =>
      (parseDigits [f1, f2]).map fun a => ⟨signed.1 * (100 * (n : Int) + a)⟩
    | _, _ => none
  | _ => none

/-- Fixed notation with two fraction digits. -/
def refNumberFixed2 (x : RefAmount) : QString :=
  let n := x.hundredths.natAbs
  (if x.hundredths < 0 then ['-'] else []) ++ Nat.toDigits 10 (n / 100) ++ ['.'] ++
    padDigits 2 (n % 100)

/-- Shortest notation: trailing fraction zeros are not written. -/
def refStreamDouble (x : RefAmount) : QString :=
  let n := x.hundredths.natAbs
  let sign : QString := if x.hundredths < 0 then ['-'] else []
  if n % 100 = 0 then sign ++ Nat.toDigits 10 (n / 100)
  else if n % 10 = 0 then sign ++ Nat.toDigits 10 (n / 100) ++ ['.'] ++ Nat.toDigits 10 (n % 100 / 10)
  else sign ++ Nat.toDigits 10 (n / 100) ++ ['.'] ++ padDigits 2 (n % 100)

/-- A reference instance of `QtLib`, used to evaluate the definitions on concrete
inputs: timestamps are calendar dates with a time of day, amounts are decimal numbers
with two fraction digits. -/
def refQt : QtLib RefDateTime RefAmount where
  nullDateTime := ⟨false, 0, 0, 0, 0, 0, 0⟩
  parseDateTime := refParseDateTime
  dateToString := refDateToString
  toMSecsSinceEpoch := refMSecs
  parseDouble := refParseDouble
  streamDouble := refStreamDouble
  numberFixed2 := refNumberFixed2

/-! ## Example data -/

/-- A timestamp of the reference instance: 2024-01-15 12:30:00. -/
def noon : RefDateTime := ⟨true, 2024, 1, 15, 12, 30, 0⟩

/-- A tracker whose users are one `bob` with password `secret` and no expenses. -/
def bobTracker : Tracker RefDateTime RefAmount :=
  ⟨[⟨"bob".toList, "secret".toList, []⟩], ⟨[], [], []⟩, []⟩

/-- The input widgets filled in for a lunch of 12.50. -/
def lunchInput : AddInput RefDateTime :=
  ⟨"lunch".toList, noon, "Food".toList, "12.50".toList⟩

/-- The expense `addExpense` builds from `lunchInput`. -/
def lunch : Expense RefDateTime RefAmount :=
  ⟨"lunch".toList, noon, "Food".toList, ⟨1250⟩⟩

/-- Another expense with the timestamp of `lunch`. -/
def coffee : Expense RefDateTime RefAmount :=
  ⟨"coffee".toList, noon, "Food".toList, ⟨300⟩⟩

/-- Seventeen expenses `a`, ..., `q`, added in that order, all with the timestamp
`noon`. -/
def seventeenTied : List (Expense RefDateTime RefAmount) :=
  "abcdefghijklmnopq".toList.map (fun c => ⟨[c], noon, "Food".toList, ⟨100⟩⟩)

/-- A tracker whose current user has the expenses `seventeenTied`. -/
def seventeenTracker : Tracker RefDateTime RefAmount :=
  ⟨[], ⟨"bob".toList, "secret".toList, seventeenTied⟩, []⟩

/-- A tracker whose current user has the expenses `lunch`, `coffee`, in that order. -/
def tiedTracker : Tracker RefDateTime RefAmount :=
  ⟨[], ⟨"bob".toList, "secret".toList, [lunch, coffee]⟩, []⟩

end ExpenseTracker

/-! # Theorems -/

namespace ExpenseTracker

variable {T A : Type}

/-! ## Session manager -/

theorem userExists_iff (u : QString) (l : List (User T A)) :
    userExists u l = true ↔ ∃ x ∈ l, x.username = u := by
  induction l with
  | nil => simp [userExists]
  | cons x xs ih =>
    by_cases hx : x.username = u
    · simp [userExists, hx]
    · simp [userExists, hx, ih]

theorem filter_username_of_not_exists (u : QString) (l : List (User T A))
    (h : userExists u l = false) : l.filter (fun x => decide (x.username = u)) = [] := by
  rw [List.filter_eq_nil_iff]
  intro x hx hdec
  have hex : userExists u l = true := (userExists_iff u l).2 ⟨x, hx, by simpa using hdec⟩
  rw [h] at hex
  exact Bool.noConfusion hex

theorem loginLoop_eq_find (u p : QString) (l : List (User T A)) :
    loginLoop u p l = l.find? (fun x => decide (x.username = u ∧ x.password = p)) := by
  induction l with
  | nil => rfl
  | cons x xs ih =>
    by_cases hx : x.username = u ∧ x.password = p
    · simp [loginLoop, hx]
    · rw [loginLoop, if_neg hx, ih, List.find?_cons_of_neg]
      simpa using hx

/-- C3. When `registerUser u p1` returns true, a following `registerUser u p2` returns
false and leaves the whole state (the users and the current user) as it was, and the
users then hold exactly one record named `u`: the one with password `p1` and no
expenses.  Usernames are compared for exact equality. -/
theorem registerUser_duplicate_rejected (st : Tracker T A) (u p1 p2 : QString)
    (h : (registerUser st u p1).1 = true) :
    (registerUser (registerUser st u p1).2 u p2).1 = false ∧
    (registerUser (registerUser st u p1).2 u p2).2 = (registerUser st u p1).2 ∧
    (registerUser (registerUser st u p1).2 u p2).2.users.filter
        (fun x => decide (x.username = u)) = [⟨u, p1, []⟩] ∧
    (registerUser (registerUser st u p1).2 u p2).2.currentUser = ⟨u, p1, []⟩ := by
  have hne : userExists u st.users = false := by
    cases hex : userExists u st.users with
    | false => rfl
    | true => simp [registerUser, hex] at h
  have h1 : (registerUser st u p1).2 = ⟨st.users ++ [⟨u, p1, []⟩], ⟨u, p1, []⟩, st.expenseList⟩ := by
    simp [registerUser, hne]
  have hex2 : userExists u (st.users ++ [(⟨u, p1, []⟩ : User T A)]) = true :=
    (userExists_iff u _).2 ⟨⟨u, p1, []⟩, by simp, rfl⟩
  have h2 : registerUser (registerUser st u p1).2 u p2 = (false, (registerUser st u p1).2) := by
    rw [h1]
    simp [registerUser, hex2]
  rw [h2]
  refine ⟨rfl, rfl, ?_, ?_⟩
  · rw [h1]
    simp [List.filter_append, filter_username_of_not_exists u st.users hne]
  · rw [h1]

/-- Instance of C3: registering `alice` twice, next to an existing `Alice`. -/
theorem registerUser_duplicate_rejected_witness :
    (registerUser (⟨[⟨"Alice".toList, "p0".toList, []⟩], ⟨[], [], []⟩, []⟩ : Tracker Nat Int)
        "alice".toList "p1".toList).1 = true ∧
    (registerUser (registerUser (⟨[⟨"Alice".toList, "p0".toList, []⟩], ⟨[], [], []⟩, []⟩ :
        Tracker Nat Int) "alice".toList "p1".toList).2 "alice".toList "p2".toList).2.users =
      [⟨"Alice".toList, "p0".toList, []⟩, ⟨"alice".toList, "p1".toList, []⟩] :=
  ⟨by decide,
    (congrArg Tracker.users (registerUser_duplicate_rejected
      (⟨[⟨"Alice".toList, "p0".toList, []⟩], ⟨[], [], []⟩, []⟩ : Tracker Nat Int)
      "alice".toList "p1".toList "p2".toList (by decide)).2.1).trans (by decide)⟩

/-- C4. `loginUser` returns true exactly when some user has that username and that
password; then the current user becomes the first such user of `users` (the whole
record, expenses included) and `users` is unchanged; when it returns false the state
is unchanged. -/
theorem loginUser_iff_credentials_match (st : Tracker T A) (u p : QString) :
    ((loginUser st u p).1 = true ↔ ∃ x ∈ st.users, x.username = u ∧ x.password = p) ∧
    ((loginUser st u p).1 = true →
      ∃ x, st.users.find? (fun x => decide (x.username = u ∧ x.password = p)) = some x ∧
        x.username = u ∧ x.password = p ∧
        (loginUser st u p).2 = ⟨st.users, x, st.expenseList⟩) ∧
    ((loginUser st u p).1 = false → (loginUser st u p).2 = st) := by
  unfold loginUser
  rw [loginLoop_eq_find]
  cases hf : st.users.find? (fun x => decide (x.username = u ∧ x.password = p)) with
  | none =>
    simp only [Bool.false_eq_true, false_iff, false_implies, true_and, implies_true, and_true]
    rw [List.find?_eq_none] at hf
    rintro ⟨x, hx, hxu⟩
    exact hf x hx (by simpa using hxu)
  | some x =>
    have hx := List.find?_some hf
    have hmem := List.mem_of_find?_eq_some hf
    simp only [decide_eq_true_eq] at hx
    refine ⟨⟨fun _ => ⟨x, hmem, hx⟩, fun _ => rfl⟩, fun _ => ⟨x, rfl, hx.1, hx.2, rfl⟩, ?_⟩
    intro h
    exact Bool.noConfusion h

/-! ## Expense ledger -/

/-- C9. `addExpense` with an empty description shows the warning and leaves the state
unchanged; otherwise it shows no warning and the current user's expenses become the
old sequence followed by one new expense with that description, timestamp and
category and with the parsed amount, or 0 when the amount text does not parse.
Nothing else of the current user and nothing of `users` changes. -/
theorem addExpense_validates_and_appends [Zero A] (lib : QtLib T A) (st : Tracker T A)
    (inp : AddInput T) :
    (inp.description = [] →
      addExpense lib st inp = (st, some "Expense description cannot be empty.".toList)) ∧
    (inp.description ≠ [] →
      (addExpense lib st inp).2 = none ∧
      (addExpense lib st inp).1.currentUser.expenses = st.currentUser.expenses ++
        [⟨inp.description, inp.expenseDate, inp.category,
          match lib.parseDouble inp.amountText with
          | some x => x
          | none => 0⟩] ∧
      (addExpense lib st inp).1.currentUser.username = st.currentUser.username ∧
      (addExpense lib st inp).1.currentUser.password = st.currentUser.password ∧
      (addExpense lib st inp).1.users = st.users) := by
  constructor
  · intro h
    simp [addExpense, h]
  · intro h
    have hne : inp.description.isEmpty = false := by
      cases hd : inp.description with
      | nil => exact absurd hd h
      | cons c cs => rfl
    simp [addExpense, hne, toDouble]

theorem totalLoop_eq_foldl [Add A] (acc : A) (es : List (Expense T A)) :
    totalLoop acc es = (es.map Expense.amount).foldl (fun x y => x + y) acc := by
  induction es generalizing acc with
  | nil => rfl
  | cons e es ih => simp [totalLoop, ih]

/-- The total as `List.sum` when addition is associative with unit 0. -/
theorem totalLoop_zero_eq_sum {M : Type} [AddMonoid M] (es : List (Expense T M)) :
    totalLoop 0 es = (es.map Expense.amount).sum := by
  rw [totalLoop_eq_foldl, List.sum_eq_foldl]

/-- C10. The `total` computed by `viewTotal` is the sum of the `amount` fields of the
current user's expenses, added one after the other in sequence order starting from 0;
it is 0 when the sequence is empty; the box shows that number; and `viewTotal` leaves
the state unchanged. -/
theorem viewTotal_is_sum_of_amounts [Zero A] [Add A] (lib : QtLib T A) (st : Tracker T A) :
    (viewTotal lib st).2.1 =
      (st.currentUser.expenses.map Expense.amount).foldl (fun x y => x + y) 0 ∧
    (st.currentUser.expenses = [] → (viewTotal lib st).2.1 = 0) ∧
    (∀ e, totalLoop (0 : A) (st.currentUser.expenses ++ [e]) =
      (viewTotal lib st).2.1 + e.amount) ∧
    (viewTotal lib st).2.2 =
      "Total Expenses: $".toList ++ lib.numberFixed2 (viewTotal lib st).2.1 ∧
    (viewTotal lib st).1 = st := by
  refine ⟨totalLoop_eq_foldl 0 _, ?_, ?_, rfl, rfl⟩
  · intro h
    simp [viewTotal, h, totalLoop]
  · intro e
    simp [viewTotal, totalLoop_eq_foldl]

/-- C2. After `bob` logs in and adds `lunch`, the current user holds the expense but
the record of `bob` in `users` still has none, and the text `saveUserData` writes has
no expense line. -/
theorem addExpense_not_stored_in_users :
    (loginUser bobTracker "bob".toList "secret".toList).1 = true ∧
    (addExpense refQt (loginUser bobTracker "bob".toList "secret".toList).2 lunchInput).2 = none ∧
    (addExpense refQt (loginUser bobTracker "bob".toList "secret".toList).2
      lunchInput).1.currentUser = ⟨"bob".toList, "secret".toList, [lunch]⟩ ∧
    (addExpense refQt (loginUser bobTracker "bob".toList "secret".toList).2
      lunchInput).1.users = [⟨"bob".toList, "secret".toList, []⟩] ∧
    saveUserData refQt (addExpense refQt (loginUser bobTracker "bob".toList "secret".toList).2
      lunchInput).1 = "bob;secret\n\n".toList := by
  decide

/-- `addExpense` never changes `users`, so after a successful add the record stored
for the current user is one expense short. -/
theorem addExpense_users_unchanged [Zero A] (lib : QtLib T A) (st : Tracker T A)
    (inp : AddInput T) : (addExpense lib st inp).1.users = st.users := by
  unfold addExpense
  split <;> rfl

theorem removeExpense_negative (st : Tracker T A) (row : Int) (h : row < 0) :
    removeExpense st row = some (st, some "Please select an expense to remove.".toList) := by
  simp [removeExpense, not_le.mpr h]

theorem removeExpense_in_range (st : Tracker T A) (i : Nat)
    (h : i < st.currentUser.expenses.length) :
    removeExpense st (i : Int) = some (⟨st.users,
      ⟨st.currentUser.username, st.currentUser.password, st.currentUser.expenses.eraseIdx i⟩,
      st.expenseList.eraseIdx i⟩, none) := by
  simp [removeExpense, h]

theorem removeExpense_beyond (st : Tracker T A) (i : Nat)
    (h : st.currentUser.expenses.length ≤ i) : removeExpense st (i : Int) = none := by
  simp [removeExpense, not_lt.mpr h]

/-- C5. `bob` logs in, adds `lunch`, and logs in again (logging out in between only
saves): the list widget still shows one row, the current user has no expense, and
`removeExpense` with that row selected calls `QVector::remove(0)` on an empty
vector. -/
theorem removeExpense_row_beyond_expenses :
    (loginUser (addExpense refQt (loginUser bobTracker "bob".toList "secret".toList).2
      lunchInput).1 "bob".toList "secret".toList).2.expenseList.length = 1 ∧
    (loginUser (addExpense refQt (loginUser bobTracker "bob".toList "secret".toList).2
      lunchInput).1 "bob".toList "secret".toList).2.currentUser.expenses = [] ∧
    removeExpense (loginUser (addExpense refQt
      (loginUser bobTracker "bob".toList "secret".toList).2
      lunchInput).1 "bob".toList "secret".toList).2 0 = none := by
  decide

/-! ## Persistence codec -/

/-- C1. Saving a single user `alice` with password `p1` writes `alice;p1`, an empty
line; loading that text reads `alice;p1` as the username and the empty line as the
password and loads no user.  With one expense, the expense line is read as the
password. -/
theorem saveUserData_then_loadUserData_differs :
    saveUserData refQt ⟨[⟨"alice".toList, "p1".toList, []⟩], ⟨[], [], []⟩, []⟩ =
      "alice;p1\n\n".toList ∧
    (loadUserData refQt Tracker.init
      (saveUserData refQt ⟨[⟨"alice".toList, "p1".toList, []⟩], ⟨[], [], []⟩, []⟩)).users = [] ∧
    saveUserData refQt ⟨[⟨"alice".toList, "p1".toList, [lunch]⟩], ⟨[], [], []⟩, []⟩ =
      "alice;p1\nlunch;2024-01-15 12:30:00;Food;12.5\n\n".toList ∧
    (loadUserData refQt Tracker.init
      (saveUserData refQt ⟨[⟨"alice".toList, "p1".toList, [lunch]⟩], ⟨[], [], []⟩, []⟩)).users =
      [⟨"alice;p1".toList, "lunch;2024-01-15 12:30:00;Food;12.5".toList, []⟩] := by
  decide

/-- A line is read up to the next newline. -/
theorem textLines_line (l rest : QString) (h : '\n' ∉ l) :
    textLines (l ++ '\n' :: rest) = l :: textLines rest := by
  induction l with
  | nil => simp [textLines]
  | cons c cs ih =>
    have hc : c ≠ '\n' := fun hc => h (by simp [hc])
    have hcs : '\n' ∉ cs := fun hcs => h (List.mem_cons_of_mem _ hcs)
    simp [textLines, hc, ih hcs]

/-- The number of parts `split` gives is the number of separators plus one. -/
theorem split_length (sep : Char) (s : QString) :
    (split sep s).length = s.count sep + 1 := by
  induction s with
  | nil => rfl
  | cons c cs ih =>
    by_cases hc : c = sep
    · subst hc
      simp [split, ih]
    · have hne : (c == sep) = false := by simpa using hc
      rw [split, if_neg hc, List.count_cons, hne]
      cases hs : split sep cs with
      | nil => rw [hs] at ih; simp at ih
      | cons part parts => rw [hs] at ih; simpa using ih

theorem readExpenses_step [Zero A] (lib : QtLib T A) (line : QString) (rest : List QString)
    (acc : List (Expense T A)) (h : line ≠ []) :
    readExpenses lib (line :: rest) acc =
      readExpenses lib rest (acc ++ keptExpenses lib [line]) := by
  have hne : line.isEmpty = false := by
    cases hd : line with
    | nil => exact absurd hd h
    | cons c cs => rfl
  rw [readExpenses, hne]
  simp only [Bool.false_eq_true, if_false, keptExpenses, lineExpense]
  rcases hs : split ';' line with _ | ⟨a, _ | ⟨b, _ | ⟨c, _ | ⟨d, _ | ⟨e, r⟩⟩⟩⟩⟩ <;>
    simp [List.filter, hs, lineExpense]

theorem keptExpenses_cons [Zero A] (lib : QtLib T A) (l : QString) (ls : List QString) :
    keptExpenses lib (l :: ls) = keptExpenses lib [l] ++ keptExpenses lib ls := by
  unfold keptExpenses
  rw [← List.map_append, ← List.filter_append]
  rfl

theorem readExpenses_block [Zero A] (lib : QtLib T A) (ls more : List QString)
    (acc : List (Expense T A)) (hls : ∀ l ∈ ls, l ≠ []) :
    readExpenses lib ls acc = (acc ++ keptExpenses lib ls, []) ∧
    readExpenses lib (ls ++ [] :: more) acc = (acc ++ keptExpenses lib ls, more) := by
  induction ls generalizing acc with
  | nil => simp [readExpenses, keptExpenses]
  | cons l ls ih =>
    have hl : l ≠ [] := hls l (by simp)
    have hrest : ∀ x ∈ ls, x ≠ [] := fun x hx => hls x (List.mem_cons_of_mem _ hx)
    have h := ih (acc ++ keptExpenses lib [l]) hrest
    rw [List.cons_append, readExpenses_step lib l _ acc hl, readExpenses_step lib l _ acc hl,
      keptExpenses_cons lib l ls, ← List.append_assoc]
    exact h

theorem readExpenses_rest_length [Zero A] (lib : QtLib T A) (ls : List QString)
    (acc : List (Expense T A)) : (readExpenses lib ls acc).2.length ≤ ls.length := by
  induction ls generalizing acc with
  | nil => simp [readExpenses]
  | cons l ls ih =>
    rw [readExpenses]
    split
    · simp
    · split
      · exact Nat.le_succ_of_le (ih _)
      · exact Nat.le_succ_of_le (ih _)

theorem loadLoop_nil [Zero A] (lib : QtLib T A) (fuel : Nat) (users : List (User T A)) :
    loadLoop lib fuel [] users = users := by
  cases fuel <;> rfl

theorem loadLoop_succ [Zero A] (lib : QtLib T A) (fuel : Nat) (lines : List QString)
    (users : List (User T A)) (h : lines.length ≤ fuel) :
    loadLoop lib (fuel + 1) lines users = loadLoop lib fuel lines users := by
  induction fuel generalizing lines users with
  | zero =>
    have hnil : lines = [] := List.length_eq_zero.mp (Nat.le_zero.mp h)
    subst hnil
    rfl
  | succ n ih =>
    cases lines with
    | nil => rfl
    | cons username afterName =>
      have hlen : afterName.length ≤ n := by simpa using h
      have htail : afterName.tail.length ≤ n := by
        rw [List.length_tail]
        omega
      have hread : (readExpenses lib afterName.tail ([] : List (Expense T A))).2.length ≤ n :=
        le_trans (readExpenses_rest_length lib _ _) htail
      rw [loadLoop, loadLoop]
      simp only []
      split
      · exact ih _ _ hread
      · exact ih _ _ htail

/-- The fuel `loadUserData` gives `loadLoop` is never used up: more fuel gives the
same users. -/
theorem loadLoop_fuel [Zero A] (lib : QtLib T A) (extra : Nat) (lines : List QString)
    (users : List (User T A)) :
    loadLoop lib (lines.length + extra) lines users = loadLoop lib lines.length lines users := by
  induction extra with
  | zero => rfl
  | succ n ih =>
    rw [← Nat.add_assoc, loadLoop_succ lib _ lines users (Nat.le_add_right _ _), ih]

theorem loadLoop_append [Zero A] (lib : QtLib T A) (fuel : Nat) (lines : List QString)
    (users : List (User T A)) :
    loadLoop lib fuel lines users = users ++ loadLoop lib fuel lines [] := by
  induction fuel generalizing lines users with
  | zero => simp [loadLoop]
  | succ n ih =>
    cases lines with
    | nil => simp [loadLoop]
    | cons username afterName =>
      rw [loadLoop, loadLoop]
      simp only []
      split
      · rw [ih _ (users ++ _), ih _ ([] ++ _)]
        simp
      · exact ih _ _

/-- The first block of a file: two non-empty header lines, the non-empty lines `ls`,
then the end of the text or an empty line followed by the lines `closing.tail`. -/
theorem loadUserData_block [Zero A] (lib : QtLib T A) (st : Tracker T A) (text : QString)
    (h1 h2 : QString) (ls closing : List QString)
    (hlines : textLines text = h1 :: h2 :: (ls ++ closing))
    (hh1 : h1 ≠ []) (hh2 : h2 ≠ []) (hls : ∀ l ∈ ls, l ≠ [])
    (hclosing : closing = [] ∨ closing.head? = some []) :
    (loadUserData lib st text).users =
      st.users ++ ⟨h1, h2, keptExpenses lib ls⟩ ::
        loadLoop lib closing.tail.length closing.tail [] := by
  have e1 : h1.isEmpty = false := by
    cases hd : h1 with
    | nil => exact absurd hd hh1
    | cons c cs => rfl
  have hread : readExpenses lib (ls ++ closing) ([] : List (Expense T A)) =
      (keptExpenses lib ls, closing.tail) := by
    rcases hclosing with hc | hc
    · subst hc
      simpa using (readExpenses_block lib ls [] [] hls).1
    · cases closing with
      | nil => simpa using (readExpenses_block lib ls [] [] hls).1
      | cons c more =>
        have hc' : c = [] := by simpa using hc
        subst hc'
        simpa using (readExpenses_block lib ls more [] hls).2
  have hstep : ∀ fuel, loadLoop lib (fuel + 1) (h1 :: h2 :: (ls ++ closing)) st.users =
      loadLoop lib fuel closing.tail (st.users ++ [⟨h1, h2, keptExpenses lib ls⟩]) := by
    intro fuel
    rw [loadLoop]
    simp [e1, hh2, hread]
  have hfuel : (ls ++ closing).length + 1 = closing.tail.length + (ls.length +
      (closing.length - closing.tail.length) + 1) := by
    have := List.length_tail closing
    simp only [List.length_append]
    omega
  have hlen : (h1 :: h2 :: (ls ++ closing)).length = ((ls ++ closing).length + 1) + 1 := rfl
  simp only [loadUserData]
  rw [hlines, hlen, hstep, hfuel, loadLoop_fuel, loadLoop_append]
  simp

/-- C6. A text whose lines are `bob;secret`, then `lunch;not-a-date;Food;abc`, then
`tea;bad;Drink;xyz`, then an empty line: neither `not-a-date` nor `bad` parses as a
timestamp and neither `abc` nor `xyz` as a number, yet the loaded user has one
expense, `tea` with the invalid timestamp and amount 0 (the first two lines were read
as username and password). -/
theorem loadUserData_keeps_unparsable_fields :
    refQt.parseDateTime "not-a-date".toList = none ∧
    refQt.parseDateTime "bad".toList = none ∧
    refQt.parseDouble "abc".toList = none ∧
    refQt.parseDouble "xyz".toList = none ∧
    (loadUserData refQt Tracker.init
      "bob;secret\nlunch;not-a-date;Food;abc\ntea;bad;Drink;xyz\n\n".toList).users =
      [⟨"bob;secret".toList, "lunch;not-a-date;Food;abc".toList,
        [⟨"tea".toList, refQt.nullDateTime, "Drink".toList, 0⟩]⟩] := by
  decide

theorem readExpenses_eq [Zero A] (lib : QtLib T A) (lines : List QString)
    (acc : List (Expense T A)) :
    readExpenses lib lines acc =
      (acc ++ keptExpenses lib (lines.takeWhile (fun l => !l.isEmpty)),
        (lines.dropWhile (fun l => !l.isEmpty)).tail) := by
  induction lines generalizing acc with
  | nil => simp [readExpenses, keptExpenses]
  | cons l ls ih =>
    cases hl : l.isEmpty with
    | true =>
      rw [readExpenses, hl]
      simp [List.takeWhile, List.dropWhile, hl, keptExpenses]
    | false =>
      have hne : l ≠ [] := by
        intro h
        rw [h] at hl
        exact Bool.noConfusion hl
      rw [readExpenses_step lib l ls acc hne, ih]
      simp only [List.takeWhile, List.dropWhile, hl, Bool.not_false]
      rw [keptExpenses_cons lib l (List.takeWhile (fun l => !l.isEmpty) ls), List.append_assoc]

theorem readExpenses_rest_suffix [Zero A] (lib : QtLib T A) (lines : List QString)
    (acc : List (Expense T A)) : (readExpenses lib lines acc).2 <:+ lines := by
  rw [readExpenses_eq]
  exact (List.tail_suffix _).trans (List.dropWhile_suffix _)

theorem loadLoop_sources [Zero A] (lib : QtLib T A) (all : List QString) (fuel : Nat)
    (lines : List QString) (users : List (User T A)) (hsuf : lines <:+ all) :
    ∀ u ∈ loadLoop lib fuel lines users, u ∈ users ∨
      ∃ rest, rest <:+ all ∧ u.expenses = (readExpenses lib rest []).1 := by
  induction fuel generalizing lines users with
  | zero =>
    intro u hu
    exact Or.inl hu
  | succ n ih =>
    cases lines with
    | nil =>
      intro u hu
      exact Or.inl hu
    | cons username afterName =>
      have h1 : afterName <:+ all := (List.suffix_cons username afterName).trans hsuf
      have h2 : afterName.tail <:+ all := (List.tail_suffix afterName).trans h1
      have h3 : (readExpenses lib afterName.tail ([] : List (Expense T A))).2 <:+ all :=
        (readExpenses_rest_suffix lib _ _).trans h2
      intro u hu
      rw [loadLoop] at hu
      simp only [] at hu
      split at hu
      · rcases ih _ _ h3 u hu with hmem | hsrc
        · rcases List.mem_append.1 hmem with hold | hnew
          · exact Or.inl hold
          · have hu' : u = ⟨username, afterName.headD [],
                (readExpenses lib afterName.tail ([] : List (Expense T A))).1⟩ := by
              simpa using hnew
            exact Or.inr ⟨afterName.tail, h2, by rw [hu']⟩
        · exact Or.inr hsrc
      · exact ih _ _ h2 u hu

/-- C6, what the code keeps. The loop of `loadUserData` that reads a user's expense
lines, started on any lines and with any expenses `acc` read so far, reads up to the
first empty line or the end of the lines and adds, in order, one expense for each line
read that splits on `;` into exactly 4 parts, and none for any other line; the expense
of a kept line has the first part as description, the third as category, the second
parsed as its timestamp or the invalid timestamp when it does not parse, and the
fourth parsed as its amount or 0 when it does not parse; reading goes on after the
empty line.  The expenses of every user that `loadUserData` adds are what this loop
gives from some position of the text. -/
theorem loadUserData_expenses_are_four_part_lines [Zero A] (lib : QtLib T A)
    (st : Tracker T A) (text : QString) :
    (∀ (lines : List QString) (acc : List (Expense T A)),
      readExpenses lib lines acc =
        (acc ++ ((lines.takeWhile (fun l => !l.isEmpty)).filter
            (fun l => decide ((split ';' l).length = 4))).map
          (fun l => ⟨(split ';' l).getD 0 [],
            (match lib.parseDateTime ((split ';' l).getD 1 []) with
              | some t => t
              | none => lib.nullDateTime),
            (split ';' l).getD 2 [],
            (match lib.parseDouble ((split ';' l).getD 3 []) with
              | some x => x
              | none => 0)⟩),
          (lines.dropWhile (fun l => !l.isEmpty)).tail)) ∧
    (∀ u ∈ (loadUserData lib st text).users, u ∈ st.users ∨
      ∃ lines, lines <:+ textLines text ∧ u.expenses = (readExpenses lib lines []).1) := by
  constructor
  · intro lines acc
    rw [readExpenses_eq]
    simp [keptExpenses, lineExpense, fromString, toDouble]
  · exact loadLoop_sources lib (textLines text) _ (textLines text) st.users
      (List.suffix_refl _)

/-- Instance of C6: of a well-formed line, a line of three parts and a line of four
parts whose timestamp and amount do not parse, followed by an empty line and one more
line, the first and the third are kept and the line after the empty one is left to
be read. -/
theorem loadUserData_expenses_are_four_part_lines_witness :
    readExpenses refQt
      ["lunch;2024-01-15 12:30:00;Food;12.50".toList, "bad;line;x".toList,
        "tea;bad;Drink;xyz".toList, [], "carol".toList] [] =
      ([lunch, ⟨"tea".toList, refQt.nullDateTime, "Drink".toList, 0⟩], ["carol".toList]) :=
  ((loadUserData_expenses_are_four_part_lines refQt Tracker.init []).1
    ["lunch;2024-01-15 12:30:00;Food;12.50".toList, "bad;line;x".toList,
      "tea;bad;Drink;xyz".toList, [], "carol".toList] []).trans (by decide)

/-! ## Sorting -/

set_option maxRecDepth 100000

theorem expenseLess_strictWeak (lib : QtLib T A) : IsStrictWeak (expenseLess lib) where
  irrefl := by
    intro a
    simp [expenseLess]
  trans := by
    intro a b c hab hbc
    simp only [expenseLess, decide_eq_true_eq] at *
    exact lt_trans hab hbc
  equivTrans := by
    intro a b c hab hba hbc hcb
    simp only [expenseLess, decide_eq_false_iff_not, not_lt] at *
    constructor <;> omega

theorem strictWeak_total {E : Type} {lt : E → E → Bool} (h : IsStrictWeak lt) (a b : E) :
    lt b a = false ∨ lt a b = false := by
  cases hba : lt b a with
  | false => exact Or.inl rfl
  | true =>
    cases hab : lt a b with
    | false => exact Or.inr rfl
    | true =>
      have haa := h.trans a b a hab hba
      rw [h.irrefl a] at haa
      exact Bool.noConfusion haa

theorem strictWeak_notLess_trans {E : Type} {lt : E → E → Bool} (h : IsStrictWeak lt)
    (a b c : E) (hab : lt b a = false) (hbc : lt c b = false) : lt c a = false := by
  cases hca : lt c a with
  | false => rfl
  | true =>
    have h1 : lt a b = false := by
      cases h' : lt a b with
      | false => rfl
      | true =>
        have := h.trans c a b hca h'
        rw [hbc] at this
        exact Bool.noConfusion this
    have h2 : lt b c = false := by
      cases h' : lt b c with
      | false => rfl
      | true =>
        have := h.trans b c a h' hca
        rw [hab] at this
        exact Bool.noConfusion this
    have h3 := (h.equivTrans a b c h1 hab h2 hbc).2
    rw [hca] at h3
    exact Bool.noConfusion h3

theorem insertionSort_sorted_of_strictWeak {E : Type} {lt : E → E → Bool}
    (h : IsStrictWeak lt) (xs : List E) :
    (xs.insertionSort (fun a b => lt b a = false)).Pairwise (fun a b => lt b a = false) := by
  haveI : IsTotal E (fun a b => lt b a = false) := ⟨fun a b => strictWeak_total h a b⟩
  haveI : IsTrans E (fun a b => lt b a = false) :=
    ⟨fun a b c hab hbc => strictWeak_notLess_trans h a b c hab hbc⟩
  exact List.sorted_insertionSort (fun a b => lt b a = false) xs

theorem stableSort_contract {E : Type} : StdSortContract (stableSort : _ → List E → List E) := by
  intro lt h xs
  exact ⟨List.perm_insertionSort _ xs, insertionSort_sorted_of_strictWeak h xs⟩

theorem stdSort_expenses {stdSort : (Expense T A → Expense T A → Bool) →
    List (Expense T A) → List (Expense T A)} (h : StdSortContract stdSort) (lib : QtLib T A)
    (xs : List (Expense T A)) :
    (stdSort (expenseLess lib) xs).Perm xs ∧
    (stdSort (expenseLess lib) xs).Pairwise (fun a b =>
      lib.toMSecsSinceEpoch a.expenseDate ≤ lib.toMSecsSinceEpoch b.expenseDate) := by
  obtain ⟨hp, hs⟩ := h (expenseLess lib) (expenseLess_strictWeak lib) xs
  refine ⟨hp, hs.imp ?_⟩
  intro a b hab
  simpa [expenseLess] using hab

/-- C7. The seventeen expenses `a`, ..., `q` all have the same timestamp.  With the
`std::sort` of GNU libstdc++, `sortExpenses` leaves them in the order
`i q p o n m l k j a h g f e d c b`: entries with equal timestamps do not keep their
input order. -/
theorem sortExpenses_reorders_equal_timestamps :
    (∀ e ∈ seventeenTracker.currentUser.expenses, e.expenseDate = noon) ∧
    seventeenTracker.currentUser.expenses.map Expense.description =
      "abcdefghijklmnopq".toList.map (fun c => [c]) ∧
    (sortExpenses refQt gnuSort seventeenTracker).currentUser.expenses.map Expense.description =
      "iqponmlkjahgfedcb".toList.map (fun c => [c]) ∧
    ¬ KeepsTieOrder (fun e => refQt.toMSecsSinceEpoch e.expenseDate)
      seventeenTracker.currentUser.expenses
      (sortExpenses refQt gnuSort seventeenTracker).currentUser.expenses := by
  refine ⟨by decide, by decide, by decide, ?_⟩
  intro hk
  have h := hk (refQt.toMSecsSinceEpoch noon)
  revert h
  decide

/-- C7, what holds for every conforming sort. With a `std::sort` that meets its contract, the expenses of the
current user after `sortExpenses` are a permutation of those before and are in
non-decreasing timestamp order; the list widget shows them in that order, and
nothing else of the state changes.  The relative order of entries with equal
timestamps is not determined. -/
theorem sortExpenses_sorted_permutation (lib : QtLib T A)
    (stdSort : (Expense T A → Expense T A → Bool) → List (Expense T A) → List (Expense T A))
    (h : StdSortContract stdSort) (st : Tracker T A) :
    (sortExpenses lib stdSort st).currentUser.expenses.Perm st.currentUser.expenses ∧
    (sortExpenses lib stdSort st).currentUser.expenses.Pairwise (fun a b =>
      lib.toMSecsSinceEpoch a.expenseDate ≤ lib.toMSecsSinceEpoch b.expenseDate) ∧
    (sortExpenses lib stdSort st).expenseList =
      (sortExpenses lib stdSort st).currentUser.expenses.map (Expense.toString lib) ∧
    (sortExpenses lib stdSort st).currentUser.username = st.currentUser.username ∧
    (sortExpenses lib stdSort st).currentUser.password = st.currentUser.password ∧
    (sortExpenses lib stdSort st).users = st.users :=
  ⟨(stdSort_expenses h lib _).1, (stdSort_expenses h lib _).2, rfl, rfl, rfl, rfl⟩

/-- Instance of C7: the stable sort, which on `lunch`, `coffee` gives what the
`std::sort` of GNU libstdc++ gives. -/
theorem sortExpenses_sorted_permutation_witness :
    sortExpenses refQt gnuSort tiedTracker = sortExpenses refQt stableSort tiedTracker ∧
    (sortExpenses refQt stableSort tiedTracker).currentUser.expenses.Perm [lunch, coffee] :=
  ⟨by decide,
    (sortExpenses_sorted_permutation refQt stableSort stableSort_contract tiedTracker).1⟩

/-- C8. With the `std::sort` of GNU libstdc++, `sortExpenses` applied once to the
seventeen expenses `a`, ..., `q` (all with the same timestamp) gives the order
`i q p o n m l k j a h g f e d c b`, and applied twice gives
`j b c d e f g h a i k l m n o p q`. -/
theorem sortExpenses_twice_differs :
    (sortExpenses refQt gnuSort seventeenTracker).currentUser.expenses.map Expense.description =
      "iqponmlkjahgfedcb".toList.map (fun c => [c]) ∧
    (sortExpenses refQt gnuSort
      (sortExpenses refQt gnuSort seventeenTracker)).currentUser.expenses.map
        Expense.description = "jbcdefghaiklmnopq".toList.map (fun c => [c]) ∧
    sortExpenses refQt gnuSort (sortExpenses refQt gnuSort seventeenTracker) ≠
      sortExpenses refQt gnuSort seventeenTracker := by
  refine ⟨by decide, by decide, ?_⟩
  intro h
  have h2 := congrArg (fun t => t.currentUser.expenses.map Expense.description) h
  revert h2
  decide

/-- C8, what holds for every conforming sort. With a `std::sort` that meets its contract, `sortExpenses` applied
twice gives a permutation of what it gives applied once, with the same timestamp (as
`<` compares it) at every position; when no two entries of the sequence share a
timestamp, the state after the second application equals the state after the
first. -/
theorem sortExpenses_twice_same_timestamps (lib : QtLib T A)
    (stdSort : (Expense T A → Expense T A → Bool) → List (Expense T A) → List (Expense T A))
    (h : StdSortContract stdSort) (st : Tracker T A) :
    (sortExpenses lib stdSort (sortExpenses lib stdSort st)).currentUser.expenses.Perm
      (sortExpenses lib stdSort st).currentUser.expenses ∧
    (sortExpenses lib stdSort (sortExpenses lib stdSort st)).currentUser.expenses.map
        (fun e => lib.toMSecsSinceEpoch e.expenseDate) =
      (sortExpenses lib stdSort st).currentUser.expenses.map
        (fun e => lib.toMSecsSinceEpoch e.expenseDate) ∧
    ((st.currentUser.expenses.map (fun e => lib.toMSecsSinceEpoch e.expenseDate)).Nodup →
      sortExpenses lib stdSort (sortExpenses lib stdSort st) = sortExpenses lib stdSort st) := by
  obtain ⟨hp1, hs1⟩ := stdSort_expenses h lib st.currentUser.expenses
  obtain ⟨hp2, hs2⟩ := stdSort_expenses h lib (stdSort (expenseLess lib) st.currentUser.expenses)
  refine ⟨hp2, ?_, ?_⟩
  · have hk2 : ((stdSort (expenseLess lib) (stdSort (expenseLess lib)
        st.currentUser.expenses)).map (fun e => lib.toMSecsSinceEpoch e.expenseDate)).Sorted
        (fun x y : Int => x ≤ y) := (List.pairwise_map).2 hs2
    have hk1 : ((stdSort (expenseLess lib) st.currentUser.expenses).map
        (fun e => lib.toMSecsSinceEpoch e.expenseDate)).Sorted
        (fun x y : Int => x ≤ y) := (List.pairwise_map).2 hs1
    exact List.eq_of_perm_of_sorted (hp2.map _) hk2 hk1
  · intro hnd
    have hnd1 : ((stdSort (expenseLess lib) st.currentUser.expenses).map
        (fun e => lib.toMSecsSinceEpoch e.expenseDate)).Nodup :=
      ((hp1.map _).nodup_iff).2 hnd
    have hne1 : (stdSort (expenseLess lib) st.currentUser.expenses).Pairwise (fun a b =>
        lib.toMSecsSinceEpoch a.expenseDate ≠ lib.toMSecsSinceEpoch b.expenseDate) :=
      (List.pairwise_map).1 hnd1
    have hne2 : (stdSort (expenseLess lib)
        (stdSort (expenseLess lib) st.currentUser.expenses)).Pairwise (fun a b =>
        lib.toMSecsSinceEpoch a.expenseDate ≠ lib.toMSecsSinceEpoch b.expenseDate) :=
      (List.pairwise_map).1 (((hp2.map _).nodup_iff).2 hnd1)
    have hlt1 := (hs1.and hne1).imp (fun hab => lt_of_le_of_ne hab.1 hab.2)
    have hlt2 := (hs2.and hne2).imp (fun hab => lt_of_le_of_ne hab.1 hab.2)
    haveI : IsAntisymm (Expense T A) (fun a b =>
        lib.toMSecsSinceEpoch a.expenseDate < lib.toMSecsSinceEpoch b.expenseDate) :=
      ⟨fun a b hab hba => absurd hba (lt_asymm hab)⟩
    have heq := List.eq_of_perm_of_sorted hp2 hlt2 hlt1
    simp only [sortExpenses]
    rw [heq]

/-- Instance of C8: the stable sort, which on `lunch`, `coffee` gives what the
`std::sort` of GNU libstdc++ gives, applied once and applied twice. -/
theorem sortExpenses_twice_same_timestamps_witness :
    sortExpenses refQt gnuSort (sortExpenses refQt gnuSort tiedTracker) =
      sortExpenses refQt stableSort (sortExpenses refQt stableSort tiedTracker) ∧
    (sortExpenses refQt stableSort (sortExpenses refQt stableSort tiedTracker)
      ).currentUser.expenses.map (fun e => refQt.toMSecsSinceEpoch e.expenseDate) =
    (sortExpenses refQt stableSort tiedTracker).currentUser.expenses.map
      (fun e => refQt.toMSecsSinceEpoch e.expenseDate) :=
  ⟨by decide,
    (sortExpenses_twice_same_timestamps refQt stableSort stableSort_contract tiedTracker).2.1⟩

end ExpenseTracker
